import Mathlib

/-!
Shallow embedding of the Gheed's Gamble randomizer and run tracker.

Sources embedded:
- `src/data.ts` — the `Challenge` record and the static `CHALLENGES` pool.
- `src/app/page.tsx` — the flow controller: `getWeightedChallengeIndex`,
  `prepareChallengeSpin`, `confirmSelection`, `useReroll`, plus the wheel's
  settle step (`Wheel.tsx` renders `CHALLENGES.map(c => c.text)` and reports
  `items[prizeNumber]`).
- `src/app/api/runs/route.ts` and `src/app/api/runs/[id]/route.ts` — the
  GET/POST/PATCH handlers over the `runs` table.
- `src/utils/runStorage.ts` — the client wrappers `getRuns` and `importRuns`.
- the SQL schema (`runs.status` CHECK constraint).

`Math.random() * totalWeight` is modelled by passing the drawn value
(a rational in `[0, totalWeight)`) as an explicit parameter.
-/

namespace Gheed

/-- `Challenge` record from `src/data.ts`. -/
structure Challenge where
  id : String
  text : String
  description : String
  weight : Int
deriving Repr, DecidableEq

/-- The static `CHALLENGES` pool from `src/data.ts`. -/
def CHALLENGES : List Challenge := [
  ⟨"c1", "No Runewords", "Cannot create or use runewords", 50⟩,
  ⟨"c2", "No Teleport", "Teleport skill and Enigma are forbidden", 80⟩,
  ⟨"c3", "SSF (Solo Self Found)", "No trading, no help from other players", 90⟩,
  ⟨"c4", "No Mercenary", "Must adventure alone without a hireling", 60⟩,
  ⟨"c5", "Walking Only (No Run)", "Toggle run off, walk everywhere", 40⟩,
  ⟨"c6", "Rare Items Only", "Can only equip rare (yellow) items", 30⟩,
  ⟨"c7", "Magic Items Only (Blue)", "Can only equip magic (blue) items", 20⟩,
  ⟨"c8", "No Potions (Wells Only)", "Cannot use potions, only healing wells", 10⟩,
  ⟨"c9", "Pacifist (Thorns/Auras)", "Cannot directly attack, only reflect/aura damage", 5⟩,
  ⟨"c11", "No Rare Items", "Cannot equip rare (yellow) items", 40⟩,
  ⟨"c12", "No Unique Items", "Cannot equip unique (gold) items", 30⟩,
  ⟨"c13", "No Set Items", "Cannot equip set (green) items", 60⟩,
  ⟨"c14", "Cosplay Run", "Must use items matching a specific theme", 35⟩,
  ⟨"c15", "Glass Cannon", "No defensive stats allowed (life, resists, defense)", 15⟩,
  ⟨"c16", "No Synergies", "Cannot invest in skills that synergize with main skill", 45⟩,
  ⟨"c17", "No Waypoints", "Must walk everywhere (town portals allowed)", 25⟩,
  ⟨"c18", "No Town Portal", "Can only use waypoints to travel", 35⟩,
  ⟨"c19", "No Charms", "Inventory only for items, no charms allowed", 55⟩,
  ⟨"c20", "No Crafting", "Cannot use Horadric Cube for crafting", 50⟩,
  ⟨"c21", "First Skill Tree Banned", "Cannot use any skills from the first skill tree", 45⟩,
  ⟨"c22", "Second Skill Tree Banned", "Cannot use any skills from the second skill tree", 45⟩,
  ⟨"c23", "Third Skill Tree Banned", "Cannot use any skills from the third skill tree", 45⟩,
  ⟨"c24", "Drop on Level", "Must drop one equipped item every time you level up", 25⟩,
  ⟨"c25", "No Repairing Gear", "Cannot repair equipment, must replace when broken", 35⟩,
  ⟨"c26", "No Trading with Vendors", "Cannot buy or sell items to NPCs", 40⟩,
  ⟨"c27", "No Rejuvenation Potions", "Cannot use rejuvenation potions", 60⟩,
  ⟨"c28", "No Mana Potions", "Cannot use mana potions, natural regen only", 50⟩,
  ⟨"c29", "Same Song on Repeat", "Must listen to the same song on loop while playing", 8⟩,
  ⟨"c30", "Ethereals Only", "Can only equip ethereal items (cannot be repaired)", 20⟩,
  ⟨"c31", "No Shields", "Cannot equip shields or off-hand items", 55⟩,
  ⟨"c32", "Bow Only", "Can only use bows as weapons (no melee, no crossbows)", 30⟩,
  ⟨"c33", "Shirtless Wonder", "Cannot equip chest armor (embrace the breeze)", 40⟩]

/-! ### Weighted selector (`getWeightedChallengeIndex` in `src/app/page.tsx`)

The for-loop `random -= availableChallenges[i].weight; if (random <= 0) return i`
becomes `weightedLoop`; the trailing `return 0` becomes `Option.getD 0`. -/

/-- The loop body of `getWeightedChallengeIndex`: walk the pool, subtracting
each weight from the running value, answering the index at which the running
value first becomes ≤ 0 (`none` when the loop falls through). -/
def weightedLoop : List Challenge → ℚ → Nat → Option Nat
  | [], _, _ => none
  | c :: rest, random, i =>
    let random' := random - (c.weight : ℚ)
    if random' ≤ 0 then some i else weightedLoop rest random' (i + 1)

/-- `getWeightedChallengeIndex` from `src/app/page.tsx`, with the drawn value
`random = Math.random() * totalWeight` passed explicitly. -/
def getWeightedChallengeIndex (availableChallenges : List Challenge) (random : ℚ) : Nat :=
  (weightedLoop availableChallenges random 0).getD 0

/-- `totalWeight`: the reduce-sum of the pool's weights. -/
def totalWeight (cs : List Challenge) : ℚ :=
  (cs.map (fun c => (c.weight : ℚ))).sum

/-- Cumulative weight of the first `n` pool entries. -/
def cumWeight : List Challenge → Nat → ℚ
  | _, 0 => 0
  | [], _ + 1 => 0
  | c :: rest, n + 1 => (c.weight : ℚ) + cumWeight rest n

/-- Restatement of the spec's algorithm in its own words: the index of the
first candidate, in pool order, at which the drawn value minus the cumulative
sum of the preceding-and-current weights becomes ≤ 0. -/
def specFirstIndex (cs : List Challenge) (r : ℚ) : Option Nat :=
  (List.range cs.length).find? (fun i => decide (r - cumWeight cs (i + 1) ≤ 0))

/-! ### Flow controller state (`src/app/page.tsx`) -/

inductive Step where
  | CONFIG
  | CLASS
  | BUILD
  | CHALLENGE
  | RESULT
deriving Repr, DecidableEq

/-- The `config` state: `{rerolls, challengeCount}`. -/
structure Config where
  rerolls : Int
  challengeCount : Int
deriving Repr, DecidableEq

/-- The `selections` state: `{className, build, challenges}`. -/
structure SelectionState where
  className : Option String
  build : Option String
  challenges : List Challenge
deriving Repr, DecidableEq

/-- The React state of the `Home` component that the flow logic touches. -/
structure FlowState where
  step : Step
  config : Config
  selections : SelectionState
  rerollsLeft : Int
  pendingResult : Option String
  targetChallengeIndex : Option Nat
deriving Repr, DecidableEq

/-- `CHALLENGES.filter(c => !selections.challenges.find(sc => sc.id === c.id))`. -/
def availableChallenges (confirmed : List Challenge) : List Challenge :=
  CHALLENGES.filter (fun c => !(confirmed.any (fun sc => sc.id == c.id)))

/-- `prepareChallengeSpin` from `src/app/page.tsx`, with the list of confirmed
challenges it closes over passed explicitly (the `setTimeout` path in
`confirmSelection` invokes it on a stale render's `selections`), and the drawn
random value passed explicitly. -/
def prepareChallengeSpinWith (confirmed : List Challenge) (r : ℚ)
    (s : FlowState) : FlowState :=
  let available := availableChallenges confirmed
  if available.isEmpty then
    { s with step := Step.RESULT }
  else
    { s with targetChallengeIndex := some (getWeightedChallengeIndex available r) }

/-- `prepareChallengeSpin` reading the current `selections.challenges`. -/
def prepareChallengeSpin (r : ℚ) (s : FlowState) : FlowState :=
  prepareChallengeSpinWith s.selections.challenges r s

/-- The wheel settling on a CHALLENGE-step spin: `Wheel.tsx` renders
`items = CHALLENGES.map(c => c.text)` and `prizeNumber = winningIndex`
(`targetChallengeIndex`), then `handleSpinComplete(items[prizeNumber])` stores
the landed text as the pending result.  `fallback` stands for the
`Math.floor(Math.random() * items.length)` index used when `winningIndex` is
undefined. -/
def spinSettleChallenge (fallback : Nat) (s : FlowState) : FlowState :=
  let prize := s.targetChallengeIndex.getD fallback
  { s with pendingResult := (CHALLENGES.map (fun c => c.text))[prize]? }

/-- `confirmSelection` from `src/app/page.tsx`.  In the CHALLENGE branch the
deferred `prepareChallengeSpin()` closes over the render's `selections`, so
the exclusion filter sees the pre-append challenge list (`s.selections`),
while the appended challenge is already in the state it transforms. -/
def confirmSelection (r : ℚ) (s : FlowState) : FlowState :=
  match s.pendingResult with
  | none => s
  | some pending =>
    match s.step with
    | Step.CLASS =>
      { s with
        selections := { s.selections with className := some pending },
        pendingResult := none,
        step := Step.BUILD }
    | Step.BUILD =>
      let s1 := { s with
        selections := { s.selections with build := some pending },
        pendingResult := none }
      if s.config.challengeCount > 0 then
        { prepareChallengeSpinWith s1.selections.challenges r s1 with
            step := Step.CHALLENGE }
      else
        { s1 with step := Step.RESULT }
    | Step.CHALLENGE =>
      let s1 :=
        match CHALLENGES.find? (fun c => c.text == pending) with
        | some challenge =>
          { s with selections := { s.selections with
              challenges := s.selections.challenges ++ [challenge] } }
        | none => s
      let s2 := { s1 with pendingResult := none }
      if (s.selections.challenges.length : Int) + 1 < s.config.challengeCount then
        prepareChallengeSpinWith s.selections.challenges r s2
      else
        { s2 with step := Step.RESULT }
    | _ => s

/-- `useReroll` from `src/app/page.tsx`. -/
def useReroll (r : ℚ) (s : FlowState) : FlowState :=
  if s.rerollsLeft > 0 then
    let s1 := { s with rerollsLeft := s.rerollsLeft - 1, pendingResult := none }
    if s1.step = Step.CHALLENGE then prepareChallengeSpin r s1 else s1
  else
    s

/-- `startFlow` from `src/app/page.tsx`. -/
def startFlow (s : FlowState) : FlowState :=
  { s with rerollsLeft := s.config.rerolls, step := Step.CLASS,
           pendingResult := none }

/-! ### Run store (`src/app/api/runs/route.ts`, the `[id]` PATCH route in the
same API directory, `src/utils/runStorage.ts`, and the `runs` table schema) -/

/-- A row of the `runs` table. -/
structure RunRow where
  id : String
  user_id : String
  timestamp : Int
  class_name : String
  build : String
  challenges : List Challenge
  status : String
  notes : Option String
  created_at : Int
  updated_at : Int
deriving Repr, DecidableEq

instance : Inhabited RunRow :=
  ⟨⟨"", "", 0, "", "", [], "", none, 0, 0⟩⟩

/-- The schema's `CHECK (status IN ('active', 'completed', 'failed'))`. -/
def validStatus (s : String) : Bool :=
  s == "active" || s == "completed" || s == "failed"

/-- The `WHERE id = ${id} AND user_id = ${userId}` predicate shared by the
PATCH and DELETE handlers. -/
def rowMatches (userId runId : String) (row : RunRow) : Bool :=
  row.id == runId && row.user_id == userId

inductive ApiResponse where
  | unauthorized
  | notFound
  | serverError
  | success
deriving Repr, DecidableEq

/-- The PATCH handler (`updateStatus`).  `session` is the authenticated email
(or `none`); `now` stands for `CURRENT_TIMESTAMP`.  SQL semantics of the
`UPDATE ... WHERE id AND user_id RETURNING *`: no matching row yields zero
returned rows (the handler answers 404); a matching row with a status value
violating the schema's CHECK constraint aborts the statement (the handler's
catch answers 500, nothing is written); otherwise every matching row is
rewritten and the handler answers success. -/
def PATCH (session : Option String) (runId : String) (status : String)
    (notes : Option String) (now : Int) (db : List RunRow) :
    ApiResponse × List RunRow :=
  match session with
  | none => (ApiResponse.unauthorized, db)
  | some userId =>
    if (db.filter (rowMatches userId runId)).isEmpty then
      (ApiResponse.notFound, db)
    else if validStatus status then
      (ApiResponse.success,
        db.map (fun row =>
          if rowMatches userId runId row then
            { row with status := status, notes := notes, updated_at := now }
          else row))
    else
      (ApiResponse.serverError, db)

/-- A store operation issued by a handler. -/
inductive StoreOp where
  | updateRuns (runId : String) (status : String) (notes : Option String)
deriving Repr, DecidableEq

/-- The store operations the PATCH handler issues: once past the
authentication check it always executes the `UPDATE` statement — there is no
app-level status validation before it. -/
def patchStoreOps (session : Option String) (runId status : String)
    (notes : Option String) : List StoreOp :=
  match session with
  | none => []
  | some _ => [StoreOp.updateRuns runId status notes]

/-- The GET handler: `none` models the 401 response; otherwise the caller's
rows ordered by `timestamp DESC`. -/
def GET (session : Option String) (db : List RunRow) : Option (List RunRow) :=
  match session with
  | none => none
  | some userId =>
    some ((db.filter (fun row => row.user_id == userId)).mergeSort
      (fun a b => decide (b.timestamp ≤ a.timestamp)))

/-- `getRuns` from `src/utils/runStorage.ts`: a 401 (and any fetch failure)
degrades to the empty list. -/
def getRuns (session : Option String) (db : List RunRow) : List RunRow :=
  match GET session db with
  | none => []
  | some rows => rows

/-- JavaScript `notes || null`: the empty string is falsy. -/
def jsOrNull (notes : Option String) : Option String :=
  match notes with
  | some s => if s == "" then none else some s
  | none => none

/-- The request body of the POST handler (`create`). -/
structure RunPayload where
  className : String
  build : String
  challenges : List Challenge
  status : String
  notes : Option String
deriving Repr, DecidableEq

/-- The POST handler (`create`).  `mintId`/`mintTs` stand for the freshly
minted `run_${Date.now()}_${random}` id and `Date.now()` timestamp.  The
`INSERT` fails (handler 500, `saveRun` resolves `null`) on a primary-key
collision or a CHECK-constraint violation; otherwise the row is appended and
the handler echoes the new run (with the body's raw `notes`, while the row
stores `notes || null`). -/
def POST (session : Option String) (mintId : String) (mintTs : Int)
    (body : RunPayload) (db : List RunRow) : Option RunRow × List RunRow :=
  match session with
  | none => (none, db)
  | some userId =>
    if db.any (fun row => row.id == mintId) || !(validStatus body.status) then
      (none, db)
    else
      let row : RunRow :=
        { id := mintId, user_id := userId, timestamp := mintTs,
          class_name := body.className, build := body.build,
          challenges := body.challenges, status := body.status,
          notes := jsOrNull body.notes,
          created_at := mintTs, updated_at := mintTs }
      (some { row with notes := body.notes }, db ++ [row])

/-- An incoming Run-like record handed to `importRuns` (the client `Run`
shape: a payload plus an `id` and a `timestamp`). -/
structure RunRecord where
  id : String
  timestamp : Int
  className : String
  build : String
  challenges : List Challenge
  status : String
  notes : Option String
deriving Repr, DecidableEq

/-- The `const { id, timestamp, ...runData } = run` destructuring: only the
payload fields survive. -/
def recordPayload (rec : RunRecord) : RunPayload :=
  ⟨rec.className, rec.build, rec.challenges, rec.status, rec.notes⟩

/-- The loop of `importRuns`: each record is re-submitted through
`saveRun`/POST with a freshly minted id and timestamp (`mint k` for the k-th
iteration); records whose save resolves `null` are skipped. -/
def importRunsAux (session : Option String) (mint : Nat → String × Int) :
    Nat → List RunRecord → List RunRow → List RunRow × List RunRow
  | _, [], db => ([], db)
  | k, rec :: rest, db =>
    match POST session (mint k).1 (mint k).2 (recordPayload rec) db with
    | (some newRun, db1) =>
      let result := importRunsAux session mint (k + 1) rest db1
      (newRun :: result.1, result.2)
    | (none, db1) =>
      importRunsAux session mint (k + 1) rest db1

/-- `importRuns` from `src/utils/runStorage.ts`: returns the list of newly
created runs and the resulting store contents. -/
def importRuns (session : Option String) (mint : Nat → String × Int)
    (records : List RunRecord) (db : List RunRow) :
    List RunRow × List RunRow :=
  importRunsAux session mint 0 records db

/-- A record with its incoming `id` and `timestamp` blanked. -/
def stripIdTs (rec : RunRecord) : RunRecord :=
  { rec with id := "", timestamp := 0 }

/-! ### Helper lemmas -/

theorem prepareChallengeSpinWith_rerollsLeft (confirmed : List Challenge)
    (r : ℚ) (s : FlowState) :
    (prepareChallengeSpinWith confirmed r s).rerollsLeft = s.rerollsLeft := by
  cases h : (availableChallenges confirmed).isEmpty <;>
    simp [prepareChallengeSpinWith, h]

theorem useReroll_rerollsLeft (r : ℚ) (s : FlowState) :
    (useReroll r s).rerollsLeft =
      if s.rerollsLeft > 0 then s.rerollsLeft - 1 else s.rerollsLeft := by
  by_cases h : s.rerollsLeft > 0
  · simp only [useReroll, prepareChallengeSpin, h, if_true]
    by_cases hs : s.step = Step.CHALLENGE <;>
      simp [hs, prepareChallengeSpinWith_rerollsLeft]
  · simp [useReroll, h]

theorem useReroll_at_zero (r : ℚ) (s : FlowState) (h : s.rerollsLeft = 0) :
    useReroll r s = s := by
  unfold useReroll
  rw [h]
  simp

/-! ### Claims -/

/-- C3: across every sequence of reroll actions the reroll budget never
becomes negative, and at budget 0 a reroll leaves the entire flow state
(budget, pending result, selections, step) unchanged. -/
theorem C3_budget_floor (s : FlowState) (rs : List ℚ)
    (h : 0 ≤ s.rerollsLeft) :
    0 ≤ (rs.foldl (fun t r => useReroll r t) s).rerollsLeft ∧
      (s.rerollsLeft = 0 → ∀ r, useReroll r s = s) := by
  constructor
  · induction rs generalizing s with
    | nil => exact h
    | cons r rest ih =>
      rw [List.foldl_cons]
      apply ih
      rw [useReroll_rerollsLeft]
      split <;> omega
  · intro h0 r
    exact useReroll_at_zero r s h0

/-- C3 witness: a concrete two-reroll sequence from budget 1, and the no-op
at budget 0. -/
theorem C3_budget_floor_witness :
    (0 : Int) ≤ (FlowState.rerollsLeft
      ⟨Step.CLASS, ⟨1, 1⟩, ⟨none, none, []⟩, 1, some "Amazon", none⟩) ∧
    (0 ≤ (([0, 0] : List ℚ).foldl (fun t r => useReroll r t)
        ⟨Step.CLASS, ⟨1, 1⟩, ⟨none, none, []⟩, 1, some "Amazon", none⟩).rerollsLeft ∧
      ((FlowState.rerollsLeft
          ⟨Step.CLASS, ⟨1, 1⟩, ⟨none, none, []⟩, 1, some "Amazon", none⟩) = 0 →
        ∀ r, useReroll r ⟨Step.CLASS, ⟨1, 1⟩, ⟨none, none, []⟩, 1, some "Amazon", none⟩ =
          ⟨Step.CLASS, ⟨1, 1⟩, ⟨none, none, []⟩, 1, some "Amazon", none⟩)) :=
  ⟨by decide, C3_budget_floor _ _ (by decide)⟩

/-- A state with no pending result, used to exercise `confirmSelection`'s
guard clause. -/
def noPendingState : FlowState :=
  ⟨Step.CLASS, ⟨1, 1⟩, ⟨none, none, []⟩, 1, none, none⟩

/-- C6 counterexample: the claim says an attempted `confirm` with no pending
result fails loudly (raises an assertion).  The code's
`if (!pendingResult) return;` instead returns silently: on a concrete
no-pending state, `confirmSelection` is a silent no-op — it produces the very
same state and signals nothing. -/
theorem C6_counterexample :
    confirmSelection 0 noPendingState = noPendingState := rfl

/-- C6 amended: invoking `confirm` when no pending result is present is
silently ignored — the call raises nothing and leaves the flow state
unchanged. -/
theorem C6_silent_noop (r : ℚ) (s : FlowState)
    (h : s.pendingResult = none) :
    confirmSelection r s = s := by
  unfold confirmSelection
  rw [h]

/-- C6 amended, witness at a concrete state. -/
theorem C6_silent_noop_witness :
    noPendingState.pendingResult = none ∧
      confirmSelection 1 noPendingState = noPendingState :=
  ⟨rfl, C6_silent_noop 1 noPendingState rfl⟩

/-- A completed run owned by alice, as stored in the `runs` table. -/
def aliceCompletedRun : RunRow :=
  ⟨"r1", "alice@example.com", 1000, "Barbarian", "Whirlwind", [],
    "completed", none, 1000, 1000⟩

/-- C2 (code bug): the PATCH handler never inspects the run's current
status, so a run already in the terminal status `completed` is happily
transitioned back to `active`: the update succeeds and rewrites the row. -/
theorem C2_terminal_resurrected :
    PATCH (some "alice@example.com") "r1" "active" none 2000
        [aliceCompletedRun] =
      (ApiResponse.success,
        [{ aliceCompletedRun with status := "active", updated_at := 2000 }]) :=
  rfl

/-- C8 counterexample: the claim says a malformed status value is rejected
before any persistence attempt.  The handler has no app-level status
validation: once authenticated it always issues the `UPDATE` against the
store, even with the out-of-vocabulary status "paused". -/
theorem C8_counterexample :
    patchStoreOps (some "alice@example.com") "r1" "paused" none =
      [StoreOp.updateRuns "r1" "paused" none] := rfl

/-- C8 amended: a status value outside {active, completed, failed} never
results in a persisted change — the handler does issue the `UPDATE` (it is
not rejected before the persistence attempt), but the write is stopped by the
schema's CHECK constraint (500) or matches no row (404): the call never
succeeds and the store is unchanged. -/
theorem C8_invalid_status_never_persists (session : Option String)
    (runId status : String) (notes : Option String) (now : Int)
    (db : List RunRow) (hv : validStatus status = false) :
    (PATCH session runId status notes now db).2 = db ∧
    (PATCH session runId status notes now db).1 ≠ ApiResponse.success ∧
    (∀ userId, session = some userId →
      patchStoreOps session runId status notes ≠ []) := by
  match session with
  | none => exact ⟨rfl, by simp [PATCH], by simp⟩
  | some userId =>
    unfold PATCH patchStoreOps
    by_cases hemp : (db.filter (rowMatches userId runId)).isEmpty
    · simp [hemp]
    · simp [hemp, hv]

/-- C8 amended, witness: alice's completed run, status "paused". -/
theorem C8_invalid_status_never_persists_witness :
    validStatus "paused" = false ∧
    ((PATCH (some "alice@example.com") "r1" "paused" none 2000
        [aliceCompletedRun]).2 = [aliceCompletedRun] ∧
      (PATCH (some "alice@example.com") "r1" "paused" none 2000
        [aliceCompletedRun]).1 ≠ ApiResponse.success ∧
      (∀ userId, (some "alice@example.com" : Option String) = some userId →
        patchStoreOps (some "alice@example.com") "r1" "paused" none ≠ [])) :=
  ⟨rfl, C8_invalid_status_never_persists (some "alice@example.com")
    "r1" "paused" none 2000 [aliceCompletedRun] rfl⟩

theorem patch_notFound_of_no_match (userId runId status : String)
    (notes : Option String) (now : Int) (db : List RunRow)
    (h : ∀ row ∈ db, ¬ rowMatches userId runId row = true) :
    PATCH (some userId) runId status notes now db =
      (ApiResponse.notFound, db) := by
  have hemp : (db.filter (rowMatches userId runId)).isEmpty = true := by
    rw [List.isEmpty_iff, List.filter_eq_nil_iff]
    exact h
  unfold PATCH
  dsimp only
  rw [hemp]
  simp

/-- C1: calling `updateStatus` as B on a run owned by a different identity A
yields exactly the outcome of calling it on an id matching no run at all —
the identical 404 "Run not found" response — and in neither case is any run
modified. -/
theorem C1_ownership_isolation (db : List RunRow)
    (A B runIdOwnedByA nonexistentId status : String)
    (notes : Option String) (now : Int)
    (hAB : A ≠ B)
    (hOwner : ∀ row ∈ db, row.id = runIdOwnedByA → row.user_id = A)
    (_hExists : ∃ row ∈ db, row.id = runIdOwnedByA)
    (hNone : ∀ row ∈ db, row.id ≠ nonexistentId) :
    PATCH (some B) runIdOwnedByA status notes now db =
        (ApiResponse.notFound, db) ∧
      PATCH (some B) nonexistentId status notes now db =
        (ApiResponse.notFound, db) := by
  constructor
  · apply patch_notFound_of_no_match
    intro row hrow hm
    rw [rowMatches, Bool.and_eq_true, beq_iff_eq, beq_iff_eq] at hm
    exact hAB ((hOwner row hrow hm.1).symm.trans hm.2)
  · apply patch_notFound_of_no_match
    intro row hrow hm
    rw [rowMatches, Bool.and_eq_true, beq_iff_eq, beq_iff_eq] at hm
    exact hNone row hrow hm.1

/-- C1 witness: bob patches alice's run r1, and patches the absent id zzz. -/
theorem C1_ownership_isolation_witness :
    ("alice@example.com" ≠ "bob@example.com") ∧
    (PATCH (some "bob@example.com") "r1" "completed" none 2000
        [aliceCompletedRun] = (ApiResponse.notFound, [aliceCompletedRun]) ∧
      PATCH (some "bob@example.com") "zzz" "completed" none 2000
        [aliceCompletedRun] = (ApiResponse.notFound, [aliceCompletedRun])) :=
  ⟨by decide,
    C1_ownership_isolation [aliceCompletedRun] "alice@example.com"
      "bob@example.com" "r1" "zzz" "completed" none 2000
      (by decide) (by decide)
      ⟨aliceCompletedRun, by decide⟩ (by decide)⟩

/-- C10: an authenticated `updateStatus` on an owned run whose body omits
`notes` succeeds, overwrites the stored notes with null, rewrites exactly
`status`, `notes` and `updated_at` on the matched run, and leaves every other
field and every other run unchanged. -/
theorem C10_notes_cleared_and_frame (db : List RunRow)
    (userId runId status : String) (now : Int)
    (hv : validStatus status = true)
    (hmatch : ∃ row ∈ db, rowMatches userId runId row = true) :
    (PATCH (some userId) runId status none now db).1 = ApiResponse.success ∧
    ((PATCH (some userId) runId status none now db).2).length = db.length ∧
    ∀ j, j < db.length →
      (rowMatches userId runId (db.getD j default) = true →
        ((PATCH (some userId) runId status none now db).2).getD j default =
          { db.getD j default with
              status := status, notes := none, updated_at := now }) ∧
      (rowMatches userId runId (db.getD j default) = false →
        ((PATCH (some userId) runId status none now db).2).getD j default =
          db.getD j default) := by
  obtain ⟨row0, hrow0, hm0⟩ := hmatch
  have hemp : (db.filter (rowMatches userId runId)).isEmpty = false := by
    rw [Bool.eq_false_iff]
    intro hcon
    rw [List.isEmpty_iff, List.filter_eq_nil_iff] at hcon
    exact hcon row0 hrow0 hm0
  unfold PATCH
  dsimp only
  rw [hemp, hv]
  simp only [Bool.false_eq_true, if_false, if_true]
  refine ⟨by trivial, by rw [List.length_map], ?_⟩
  intro j hj
  have hget : (db.map (fun row =>
      if rowMatches userId runId row = true then
        { row with status := status, notes := none, updated_at := now }
      else row)).getD j default =
      (fun row =>
        if rowMatches userId runId row = true then
          { row with status := status, notes := none, updated_at := now }
        else row) (db.getD j default) := by
    rw [List.getD_eq_getElem?_getD, List.getElem?_map,
      List.getElem?_eq_getElem hj, List.getD_eq_getElem?_getD,
      List.getElem?_eq_getElem hj]
    rfl
  constructor
  · intro hm
    rw [hget]
    dsimp only
    rw [hm]
    simp
  · intro hm
    rw [hget]
    dsimp only
    rw [hm]
    simp

/-- An active run of alice's carrying notes, used to exercise the
notes-clearing frame of the PATCH handler. -/
def aliceActiveNotedRun : RunRow :=
  { aliceCompletedRun with status := "active", notes := some "keep these" }

/-- C10 witness: alice updates her own run r1 to failed with no notes in the
body; the stored notes are cleared and the frame holds. -/
theorem C10_notes_cleared_and_frame_witness :
    validStatus "failed" = true ∧
    ((PATCH (some "alice@example.com") "r1" "failed" none 2000
        [aliceActiveNotedRun]).1 = ApiResponse.success ∧
      ((PATCH (some "alice@example.com") "r1" "failed" none 2000
        [aliceActiveNotedRun]).2).length = [aliceActiveNotedRun].length ∧
      ∀ j, j < [aliceActiveNotedRun].length →
        (rowMatches "alice@example.com" "r1"
            (List.getD [aliceActiveNotedRun] j default) = true →
          ((PATCH (some "alice@example.com") "r1" "failed" none 2000
            [aliceActiveNotedRun]).2).getD j default =
            { List.getD [aliceActiveNotedRun] j default with
                status := "failed", notes := none, updated_at := 2000 }) ∧
        (rowMatches "alice@example.com" "r1"
            (List.getD [aliceActiveNotedRun] j default) = false →
          ((PATCH (some "alice@example.com") "r1" "failed" none 2000
            [aliceActiveNotedRun]).2).getD j default =
            List.getD [aliceActiveNotedRun] j default)) :=
  ⟨rfl, C10_notes_cleared_and_frame [aliceActiveNotedRun]
    "alice@example.com" "r1" "failed" 2000 rfl
    ⟨aliceActiveNotedRun, by decide⟩⟩

/-- The comparison the GET handler's `ORDER BY timestamp DESC` sorts by. -/
def tsDesc (a b : RunRow) : Bool :=
  decide (b.timestamp ≤ a.timestamp)

theorem tsDesc_trans (a b c : RunRow) (h1 : tsDesc a b = true)
    (h2 : tsDesc b c = true) : tsDesc a c = true := by
  rw [tsDesc, decide_eq_true_eq] at *
  exact le_trans h2 h1

theorem tsDesc_total (a b : RunRow) : (tsDesc a b || tsDesc b a) = true := by
  rw [Bool.or_eq_true, tsDesc, tsDesc, decide_eq_true_eq, decide_eq_true_eq]
  exact Int.le_total b.timestamp a.timestamp

/-- C7: for every owner, `list` returns exactly that owner's runs ordered
most-recent-first by timestamp, and an unauthenticated caller gets the empty
list back from the read path rather than a thrown error. -/
theorem C7_list_ordered_and_unauthenticated_empty (db : List RunRow) :
    getRuns none db = [] ∧
    ∀ userId,
      (getRuns (some userId) db).Pairwise
        (fun a b => b.timestamp ≤ a.timestamp) ∧
      (getRuns (some userId) db).Perm
        (db.filter (fun row => row.user_id == userId)) := by
  refine ⟨rfl, ?_⟩
  intro userId
  have hred : getRuns (some userId) db =
      (db.filter (fun row => row.user_id == userId)).mergeSort tsDesc := rfl
  rw [hred]
  constructor
  · have hpw := @List.sorted_mergeSort RunRow tsDesc tsDesc_trans tsDesc_total
      (db.filter (fun row => row.user_id == userId))
    exact hpw.imp (fun h => by
      rw [tsDesc, decide_eq_true_eq] at h
      exact h)
  · exact List.mergeSort_perm _ _

theorem POST_disjunction (session : Option String) (mintId : String)
    (mintTs : Int) (body : RunPayload) (db : List RunRow) :
    POST session mintId mintTs body db = (none, db) ∨
    ∃ resp row,
      POST session mintId mintTs body db = (some resp, db ++ [row]) ∧
        resp.id = mintId ∧ resp.timestamp = mintTs := by
  match session with
  | none => exact Or.inl rfl
  | some userId =>
    unfold POST
    dsimp only
    by_cases hc :
        (db.any (fun row => row.id == mintId) || !(validStatus body.status)) = true
    · rw [if_pos hc]
      exact Or.inl rfl
    · rw [if_neg hc]
      exact Or.inr ⟨_, _, rfl, rfl, rfl⟩

theorem importRunsAux_spec (session : Option String)
    (mint : Nat → String × Int) :
    ∀ (records : List RunRecord) (k : Nat) (db : List RunRow),
      (∃ created, (importRunsAux session mint k records db).2 = db ++ created) ∧
      importRunsAux session mint k (records.map stripIdTs) db =
        importRunsAux session mint k records db ∧
      ∀ row ∈ (importRunsAux session mint k records db).1,
        ∃ j, row.id = (mint j).1 ∧ row.timestamp = (mint j).2 := by
  intro records
  induction records with
  | nil =>
    intro k db
    refine ⟨⟨[], by simp [importRunsAux]⟩, rfl, ?_⟩
    intro row hrow
    simp [importRunsAux] at hrow
  | cons rec rest ih =>
    intro k db
    have hpay : recordPayload (stripIdTs rec) = recordPayload rec := rfl
    rcases POST_disjunction session (mint k).1 (mint k).2 (recordPayload rec) db with
      hpost | ⟨resp, row, hpost, hrid, hrts⟩
    · have hstep : importRunsAux session mint k (rec :: rest) db =
          importRunsAux session mint (k + 1) rest db := by
        simp only [importRunsAux]
        rw [hpost]
      have hstep' : importRunsAux session mint k
            ((rec :: rest).map stripIdTs) db =
          importRunsAux session mint (k + 1) (rest.map stripIdTs) db := by
        rw [List.map_cons]
        simp only [importRunsAux]
        rw [hpay, hpost]
      obtain ⟨⟨created, hadd⟩, hstrip, hmint⟩ := ih (k + 1) db
      refine ⟨⟨created, by rw [hstep]; exact hadd⟩, ?_, ?_⟩
      · rw [hstep', hstep, hstrip]
      · intro row hrow
        rw [hstep] at hrow
        exact hmint row hrow
    · have hstep : importRunsAux session mint k (rec :: rest) db =
          (resp :: (importRunsAux session mint (k + 1) rest (db ++ [row])).1,
            (importRunsAux session mint (k + 1) rest (db ++ [row])).2) := by
        simp only [importRunsAux]
        rw [hpost]
      have hstep' : importRunsAux session mint k
            ((rec :: rest).map stripIdTs) db =
          (resp :: (importRunsAux session mint (k + 1) (rest.map stripIdTs)
              (db ++ [row])).1,
            (importRunsAux session mint (k + 1) (rest.map stripIdTs)
              (db ++ [row])).2) := by
        rw [List.map_cons]
        simp only [importRunsAux]
        rw [hpay, hpost]
      obtain ⟨⟨created, hadd⟩, hstrip, hmint⟩ := ih (k + 1) (db ++ [row])
      refine ⟨⟨row :: created, ?_⟩, ?_, ?_⟩
      · rw [hstep]
        dsimp only
        rw [hadd, List.append_cons]
        simp
      · rw [hstep', hstep, hstrip]
      · intro row' hrow'
        rw [hstep] at hrow'
        rcases List.mem_cons.mp hrow' with heq | hmem
        · exact ⟨k, by rw [heq, hrid], by rw [heq, hrts]⟩
        · exact hmint row' hmem

/-- C9: `importRuns` re-submits each incoming record through `create`: the
result is unchanged when every record's incoming `id` and `timestamp` are
blanked (they are stripped; the store mints fresh ones — every created run
carries a minted id and timestamp), and the resulting store is the old store
with the new rows appended: no run that existed before the import is
modified or deleted. -/
theorem C9_import_is_additive_merge (session : Option String)
    (mint : Nat → String × Int) (records : List RunRecord)
    (db : List RunRow) :
    (∃ created, (importRuns session mint records db).2 = db ++ created) ∧
    importRuns session mint (records.map stripIdTs) db =
      importRuns session mint records db ∧
    ∀ row ∈ (importRuns session mint records db).1,
      ∃ j, row.id = (mint j).1 ∧ row.timestamp = (mint j).2 :=
  importRunsAux_spec session mint records 0 db

end Gheed

namespace Gheed

theorem cumWeight_zero (cs : List Challenge) : cumWeight cs 0 = 0 := by
  cases cs <;> rfl

theorem cumWeight_nil (n : Nat) : cumWeight [] n = 0 := by
  cases n <;> rfl

theorem cumWeight_cons (c : Challenge) (rest : List Challenge) (n : Nat) :
    cumWeight (c :: rest) (n + 1) = (c.weight : ℚ) + cumWeight rest n := rfl

theorem totalWeight_eq_cumWeight (cs : List Challenge) :
    totalWeight cs = cumWeight cs cs.length := by
  induction cs with
  | nil => rfl
  | cons c rest ih =>
    simp [totalWeight, List.length_cons, cumWeight_cons] at *
    rw [ih]

theorem weightedLoop_shift (cs : List Challenge) :
    ∀ (r : ℚ) (k : Nat),
      weightedLoop cs r k = (weightedLoop cs r 0).map (fun j => k + j) := by
  induction cs with
  | nil => intro r k; rfl
  | cons c rest ih =>
    intro r k
    simp only [weightedLoop]
    by_cases h : r - (c.weight : ℚ) ≤ 0
    · simp [h]
    · simp only [h, if_false]
      rw [ih _ (k + 1), ih _ 1, Option.map_map]
      congr 1
      funext j
      simp
      omega

theorem weightedLoop_eq_some (cs : List Challenge) :
    ∀ (r : ℚ) (j : Nat),
      weightedLoop cs r 0 = some j ↔
        j < cs.length ∧ r ≤ cumWeight cs (j + 1) ∧
          ∀ m < j, cumWeight cs (m + 1) < r := by
  induction cs with
  | nil =>
    intro r j
    simp [weightedLoop]
  | cons c rest ih =>
    intro r j
    simp only [weightedLoop]
    by_cases h : r - (c.weight : ℚ) ≤ 0
    · simp only [h, if_true]
      constructor
      · rintro h0
        have hj : j = 0 := by
          injection h0 with h1
          omega
        subst hj
        refine ⟨Nat.succ_pos _, ?_, by omega⟩
        rw [cumWeight_cons, cumWeight_zero]
        linarith
      · rintro ⟨_, hle, hlt⟩
        match j with
        | 0 => rfl
        | j' + 1 =>
          have := hlt 0 (Nat.succ_pos _)
          rw [cumWeight_cons, cumWeight_zero] at this
          linarith
    · simp only [h, if_false]
      rw [weightedLoop_shift rest _ 1]
      have hwr : (c.weight : ℚ) < r := by linarith
      constructor
      · intro h0
        obtain ⟨j', hj', rfl⟩ : ∃ j', weightedLoop rest (r - (c.weight : ℚ)) 0 = some j' ∧ 1 + j' = j := by
          cases hml : weightedLoop rest (r - (c.weight : ℚ)) 0 with
          | none => rw [hml] at h0; simp at h0
          | some a => rw [hml] at h0; simp at h0; exact ⟨a, rfl, h0⟩
        obtain ⟨hlen, hle, hlt⟩ := (ih _ j').mp hj'
        refine ⟨by simp only [List.length_cons]; omega, ?_, ?_⟩
        · have : 1 + j' + 1 = (j' + 1) + 1 := by omega
          rw [this, cumWeight_cons]
          linarith
        · intro m hm
          match m with
          | 0 =>
            rw [cumWeight_cons, cumWeight_zero]
            linarith
          | m' + 1 =>
            rw [cumWeight_cons]
            have := hlt m' (by omega)
            linarith
      · rintro ⟨hlen, hle, hlt⟩
        match j with
        | 0 =>
          rw [cumWeight_cons, cumWeight_zero] at hle
          linarith
        | j' + 1 =>
          have hj' : weightedLoop rest (r - (c.weight : ℚ)) 0 = some j' := by
            refine (ih _ j').mpr ⟨by simpa using hlen, ?_, ?_⟩
            · rw [cumWeight_cons] at hle
              linarith
            · intro m hm
              have := hlt (m + 1) (by omega)
              rw [cumWeight_cons] at this
              linarith
          rw [hj']
          simp [Nat.add_comm]

theorem cumWeight_mono (cs : List Challenge) (hw : ∀ c ∈ cs, 0 ≤ c.weight) :
    ∀ {m n : Nat}, m ≤ n → cumWeight cs m ≤ cumWeight cs n := by
  induction cs with
  | nil => intro m n _; rw [cumWeight_nil, cumWeight_nil]
  | cons c rest ih =>
    intro m n hmn
    match m, n with
    | 0, 0 => exact le_refl _
    | 0, n + 1 =>
      rw [cumWeight_zero, cumWeight_cons]
      have hc : (0 : ℚ) ≤ (c.weight : ℚ) := by
        exact_mod_cast hw c (List.mem_cons_self _ _)
      have hr : (0 : ℚ) ≤ cumWeight rest n := by
        have := ih (fun x hx => hw x (List.mem_cons_of_mem _ hx)) (Nat.zero_le n)
        rwa [cumWeight_zero] at this
      linarith
    | m + 1, n + 1 =>
      rw [cumWeight_cons, cumWeight_cons]
      have := ih (fun x hx => hw x (List.mem_cons_of_mem _ hx))
        (Nat.le_of_succ_le_succ hmn)
      linarith

theorem range_find?_eq_some :
    ∀ (n : Nat) (p : Nat → Bool) (j : Nat), (List.range n).find? p = some j ↔
      j < n ∧ p j = true ∧ ∀ m < j, p m = false := by
  intro n
  induction n with
  | zero => intro p j; simp
  | succ n ih =>
    intro p j
    rw [List.range_succ_eq_map, List.find?_cons]
    cases hp0 : p 0 with
    | true =>
      simp only
      constructor
      · intro h0
        injection h0 with h1
        exact ⟨by omega, h1 ▸ hp0, by omega⟩
      · rintro ⟨_, hj, hlt⟩
        match j with
        | 0 => rfl
        | j' + 1 =>
          have := hlt 0 (Nat.succ_pos _)
          rw [hp0] at this
          exact absurd this (by simp)
    | false =>
      simp only
      rw [List.find?_map]
      constructor
      · intro h0
        obtain ⟨j', hj', rfl⟩ : ∃ j', (List.range n).find? (p ∘ Nat.succ) = some j' ∧ Nat.succ j' = j := by
          cases hml : (List.range n).find? (p ∘ Nat.succ) with
          | none => rw [hml] at h0; simp at h0
          | some a => rw [hml] at h0; simp at h0; exact ⟨a, rfl, h0⟩
        obtain ⟨hlen, hpj, hlt⟩ := (ih (p ∘ Nat.succ) j').mp hj'
        refine ⟨by omega, hpj, ?_⟩
        intro m hm
        match m with
        | 0 => exact hp0
        | m' + 1 => exact hlt m' (by omega)
      · rintro ⟨hlen, hpj, hlt⟩
        match j with
        | 0 => rw [hp0] at hpj; exact absurd hpj (by simp)
        | j' + 1 =>
          have : (List.range n).find? (p ∘ Nat.succ) = some j' :=
            (ih (p ∘ Nat.succ) j').mpr
              ⟨by omega, hpj, fun m hm => hlt (m + 1) (by omega)⟩
          rw [this]
          rfl

theorem weightedLoop_exists_hit (cs : List Challenge) (r : ℚ)
    (hne : cs ≠ []) (htot : r ≤ totalWeight cs) :
    ∃ j, weightedLoop cs r 0 = some j := by
  classical
  have hlen : 0 < cs.length := List.length_pos.mpr hne
  have hex : ∃ i, r ≤ cumWeight cs (i + 1) := by
    refine ⟨cs.length - 1, ?_⟩
    have h1 : cs.length - 1 + 1 = cs.length := by omega
    rw [h1, ← totalWeight_eq_cumWeight]
    exact htot
  refine ⟨Nat.find hex, (weightedLoop_eq_some cs r _).mpr ⟨?_, Nat.find_spec hex, ?_⟩⟩
  · have : Nat.find hex ≤ cs.length - 1 := by
      apply Nat.find_le
      have h1 : cs.length - 1 + 1 = cs.length := by omega
      rw [h1, ← totalWeight_eq_cumWeight]
      exact htot
    omega
  · intro m hm
    have := Nat.find_min hex hm
    linarith

theorem cumWeight_stable (cs : List Challenge) :
    ∀ n, cs.length ≤ n → cumWeight cs n = totalWeight cs := by
  induction cs with
  | nil =>
    intro n _
    rw [cumWeight_nil]
    rfl
  | cons c rest ih =>
    intro n hn
    match n with
    | 0 => simp at hn
    | m + 1 =>
      rw [cumWeight_cons, ih m (by simpa using hn)]
      simp [totalWeight]

/-- C5: on a non-empty pool with positive weights and a drawn value
`r ∈ [0, totalWeight)`, `getWeightedChallengeIndex` returns exactly the index
described by the spec — the first candidate, in pool order, at which `r`
minus the cumulative sum of the preceding-and-current weights becomes ≤ 0
(so the selector is a deterministic function of the drawn value); moreover
the drawn values selecting index `i` form exactly the half-open band of the
cumulative-weight scale whose width is the i-th weight, which is the
proportionality guarantee. -/
theorem C5_selector_matches_spec (cs : List Challenge) (r : ℚ)
    (hne : cs ≠ []) (hw : ∀ c ∈ cs, 0 < c.weight)
    (_h0 : 0 ≤ r) (hr : r < totalWeight cs) :
    specFirstIndex cs r = some (getWeightedChallengeIndex cs r) ∧
    ∀ i, getWeightedChallengeIndex cs r = i ↔
      ((cumWeight cs i < r ∧ r ≤ cumWeight cs (i + 1)) ∨
        (i = 0 ∧ r ≤ cumWeight cs 1)) := by
  obtain ⟨j, hj⟩ := weightedLoop_exists_hit cs r hne (le_of_lt hr)
  obtain ⟨hjlen, hjle, hjlt⟩ := (weightedLoop_eq_some cs r j).mp hj
  have hsel : getWeightedChallengeIndex cs r = j := by
    rw [getWeightedChallengeIndex, hj]
    rfl
  have hwpos : ∀ c ∈ cs, 0 ≤ c.weight := fun c hc => le_of_lt (hw c hc)
  constructor
  · rw [hsel, specFirstIndex]
    apply (range_find?_eq_some cs.length _ j).mpr
    refine ⟨hjlen, ?_, ?_⟩
    · rw [decide_eq_true_eq]
      linarith
    · intro m hm
      rw [decide_eq_false_iff_not]
      have := hjlt m hm
      intro hcon
      linarith
  · intro i
    rw [hsel]
    constructor
    · rintro rfl
      match j, hjle, hjlt with
      | 0, hjle, _ => exact Or.inr ⟨rfl, hjle⟩
      | j' + 1, hjle, hjlt =>
        exact Or.inl ⟨hjlt j' (Nat.lt_succ_self j'), hjle⟩
    · rintro (⟨hlo, hhi⟩ | ⟨rfl, hle1⟩)
      · have hilen : i < cs.length := by
          by_contra hcon
          rw [cumWeight_stable cs i (by omega)] at hlo
          linarith
        have : weightedLoop cs r 0 = some i := by
          refine (weightedLoop_eq_some cs r i).mpr ⟨hilen, hhi, ?_⟩
          intro m hm
          calc cumWeight cs (m + 1) ≤ cumWeight cs i :=
                cumWeight_mono cs hwpos (by omega)
            _ < r := hlo
        rw [hj] at this
        exact Option.some.inj this
      · have : weightedLoop cs r 0 = some 0 :=
          (weightedLoop_eq_some cs r 0).mpr
            ⟨List.length_pos.mpr hne, hle1, by omega⟩
        rw [hj] at this
        exact Option.some.inj this

/-- A tiny two-candidate pool with unit weights, for the selector witness. -/
def unitPool : List Challenge :=
  [⟨"w1", "W1", "", 1⟩, ⟨"w2", "W2", "", 1⟩]

/-- C5 witness: the unit pool with drawn value 1 lands on the spec's first
crossing index. -/
theorem C5_selector_matches_spec_witness :
    unitPool ≠ [] ∧ (∀ c ∈ unitPool, 0 < c.weight) ∧ (0:ℚ) ≤ 1 ∧
      1 < totalWeight unitPool ∧
      specFirstIndex unitPool 1 = some (getWeightedChallengeIndex unitPool 1) :=
  ⟨by decide, by decide, zero_le_one, by simp [totalWeight, unitPool],
    (C5_selector_matches_spec unitPool 1 (by decide) (by decide) zero_le_one
      (by simp [totalWeight, unitPool])).1⟩

/-- The head of the `CHALLENGES` pool. -/
def c1row : Challenge :=
  ⟨"c1", "No Runewords", "Cannot create or use runewords", 50⟩

/-- Flow state at entry of the CHALLENGE step: `challengeCount = 2`, no
rerolls, class and build already confirmed, no challenge confirmed yet. -/
def c4Start : FlowState :=
  ⟨Step.CHALLENGE, ⟨0, 2⟩, ⟨some "Barbarian", some "Whirlwind", []⟩, 0,
    none, none⟩

/-- The flow after two challenge draws, both with drawn value 0: prepare,
settle, confirm, settle, confirm. -/
def c4Final : FlowState :=
  confirmSelection 0 (spinSettleChallenge 0 (confirmSelection 0
    (spinSettleChallenge 0 (prepareChallengeSpin 0 c4Start))))

/-- C4 (code bug): a completed flow with `challengeCount = 2` over the
33-challenge pool can confirm the same challenge twice.  The target index is
drawn over the filtered pool, but the wheel renders the unfiltered
`CHALLENGES` list, so after "No Runewords" (id c1) is confirmed, a second
draw landing on index 0 presents — and confirms — "No Runewords" again: the
flow reaches RESULT with challenge ids [c1, c1], not 2 distinct ids. -/
theorem C4_duplicate_challenge_confirmed :
    c4Final.step = Step.RESULT ∧
    c4Final.selections.challenges.map (fun c => c.id) = ["c1", "c1"] ∧
    ¬ (c4Final.selections.challenges.map (fun c => c.id)).Nodup := by
  have h1 : prepareChallengeSpin 0 c4Start =
      { c4Start with targetChallengeIndex := some 0 } := by
    norm_num [prepareChallengeSpin, prepareChallengeSpinWith,
      availableChallenges, CHALLENGES, c4Start, getWeightedChallengeIndex,
      weightedLoop]
  have h2 : spinSettleChallenge 0
        { c4Start with targetChallengeIndex := some 0 } =
      { c4Start with
          targetChallengeIndex := some 0
          pendingResult := some "No Runewords" } := by
    norm_num [spinSettleChallenge, CHALLENGES, c4Start]
  have h3 : confirmSelection 0
        { c4Start with
            targetChallengeIndex := some 0
            pendingResult := some "No Runewords" } =
      { c4Start with
          targetChallengeIndex := some 0
          selections := ⟨some "Barbarian", some "Whirlwind", [c1row]⟩ } := by
    norm_num [confirmSelection, c4Start, CHALLENGES, c1row,
      prepareChallengeSpinWith, availableChallenges,
      getWeightedChallengeIndex, weightedLoop]
  have h4 : spinSettleChallenge 0
        { c4Start with
            targetChallengeIndex := some 0
            selections := ⟨some "Barbarian", some "Whirlwind", [c1row]⟩ } =
      { c4Start with
          targetChallengeIndex := some 0
          selections := ⟨some "Barbarian", some "Whirlwind", [c1row]⟩
          pendingResult := some "No Runewords" } := by
    norm_num [spinSettleChallenge, CHALLENGES, c4Start]
  have h5 : confirmSelection 0
        { c4Start with
            targetChallengeIndex := some 0
            selections := ⟨some "Barbarian", some "Whirlwind", [c1row]⟩
            pendingResult := some "No Runewords" } =
      { c4Start with
          targetChallengeIndex := some 0
          selections := ⟨some "Barbarian", some "Whirlwind", [c1row, c1row]⟩
          step := Step.RESULT } := by
    norm_num [confirmSelection, c4Start, CHALLENGES, c1row]
  have hfin : c4Final =
      { c4Start with
          targetChallengeIndex := some 0
          selections := ⟨some "Barbarian", some "Whirlwind", [c1row, c1row]⟩
          step := Step.RESULT } := by
    rw [c4Final, h1, h2, h3, h4, h5]
  rw [hfin]
  refine ⟨rfl, rfl, ?_⟩
  decide

end Gheed
